import Mathlib

/-!
Shallow embedding of the settings-resolution layer of the repository
(src/settings.py) together with the parts of its configuration machinery
that the settings class delegates to the underlying settings library
(source merging, environment lookup, required-field validation), and the
concrete `Settings` subclass.

Python values that occur in the settings layer are strings, integers and
`None`; dictionaries are modelled as insertion-ordered association lists
with overwrite-on-insert, matching Python dict semantics.
-/

set_option autoImplicit false

namespace CdkSettingsModel

/-- A Python value as it occurs in the settings layer: a string, an
integer, or `None`. -/
inductive Value where
  | vstr : String → Value
  | vint : Int → Value
  | vnone : Value
  deriving DecidableEq, Repr

/-- A Python dict from strings to values, as an insertion-ordered
association list whose keys are kept unique by `dictInsert`. -/
abbrev Dict := List (String × Value)

/-- Lookup in a dict: the first entry with the given key. -/
def dictGet : Dict → String → Option Value
  | [], _ => none
  | (k, v) :: rest, key => if k = key then some v else dictGet rest key

/-- Python dict assignment of v under key: overwrite the existing entry
in place if the key is present, otherwise append a new entry at the
end. -/
def dictInsert : Dict → String → Value → Dict
  | [], key, v => [(key, v)]
  | (k, w) :: rest, key, v =>
    if k = key then (key, v) :: rest else (k, w) :: dictInsert rest key v

/-- The export policy of a settings field (class `ExportMode` in
src/settings.py). -/
inductive ExportMode where
  | ALWAYS
  | IF_NOT_DEFAULT
  | IF_NOT_NONE
  | NEVER
  deriving DecidableEq, Repr

/-- The schema of one declared settings field, as exposed by the
properties entry of the schema dict that src/settings.py iterates: the
field name, its declared default (`none` when the field is required,
declared with no default), the optional `export_mode` extra, and the
list of environment-variable names for the field, canonical alias
first (the settings library derives these as the configured
`env_prefix` followed by the field name, lowercased, unless an explicit
env alias is given). -/
structure FieldSchema where
  name : String
  default : Option Value
  export_mode : Option ExportMode
  env_names : List String
  deriving DecidableEq, Repr

/-- The canonical environment-variable alias of a field: the first
element of its env_names, as taken by src/settings.py with next and
iter. The library always populates `env_names` with at least one
name. -/
def headAlias (fs : FieldSchema) : String :=
  fs.env_names.headD ""

/-- The value src/settings.py reads from the default entry of the field
schema dict: the declared default, with Python `None` both when the
field is required and when the declared default is `None`. -/
def schemaDefault (fs : FieldSchema) : Value :=
  fs.default.getD Value.vnone

/-- The `context_settings` source of src/settings.py: for each declared
field, look the field name up in the deployment context of the CDK app
(`try_get_context`, which returns Python `None` for an absent key) and
record the value unless the lookup result is `None`. -/
def context_settings (schema : List FieldSchema) (try_get_context : String → Value) : Dict :=
  schema.foldl
    (fun settings_dict fs =>
      if try_get_context fs.name ≠ Value.vnone then
        dictInsert settings_dict fs.name (try_get_context fs.name)
      else
        settings_dict)
    []

/-- First environment value found for a list of environment-variable
names, in order. -/
def firstEnvValue : List String → (String → Option String) → Option String
  | [], _ => none
  | n :: rest, environ =>
    match environ n with
    | some s => some s
    | none => firstEnvValue rest environ

/-- The environment-variables source of the settings library: for each
declared field, the first of its environment-variable names that is set
in the process environment supplies the raw string value. -/
def env_settings (schema : List FieldSchema) (environ : String → Option String) : Dict :=
  schema.foldl
    (fun d fs =>
      match firstEnvValue fs.env_names environ with
      | some s => dictInsert d fs.name (Value.vstr s)
      | none => d)
    []

/-- The secret-files source of the settings library: for each declared
field, the first of its environment-variable names for which a secret
file exists supplies the raw string value. -/
def file_secret_settings (schema : List FieldSchema) (secrets : String → Option String) : Dict :=
  schema.foldl
    (fun d fs =>
      match firstEnvValue fs.env_names secrets with
      | some s => dictInsert d fs.name (Value.vstr s)
      | none => d)
    []

/-- The `customise_sources` hook of `CdkSettings.Config` in
src/settings.py: the sources in decreasing precedence, explicit init
arguments first, then the deployment context, then environment
variables, then secret files. -/
def customise_sources (init_settings context_src env_src file_secret_src : Dict) : List Dict :=
  [init_settings, context_src, env_src, file_secret_src]

/-- Merging pass of the settings library over the customised sources:
each source dict is applied in turn, a later-applied dict overwriting
keys of an earlier one; the library applies the reversed source tuple so
that the first source wins. -/
def deep_update (dicts : List Dict) : Dict :=
  dicts.foldl (fun acc d => d.foldl (fun a kv => dictInsert a kv.1 kv.2) acc) []

/-- The merged raw field values the settings library builds from the
customised sources. -/
def build_values (sources : List Dict) : Dict :=
  deep_update sources.reverse

/-- The declared fields whose value is missing after the merge: required
fields (no declared default) with no entry in the merged dict. -/
def missingFields (schema : List FieldSchema) (merged : Dict) : List String :=
  schema.filterMap
    (fun fs =>
      if (dictGet merged fs.name).isNone ∧ fs.default.isNone then some fs.name else none)

/-- The merged raw values of the four customised sources of
`CdkSettings`. -/
def mergedSources (schema : List FieldSchema) (init_settings : Dict)
    (try_get_context : String → Value) (environ secrets : String → Option String) : Dict :=
  build_values (customise_sources init_settings
    (context_settings schema try_get_context)
    (env_settings schema environ)
    (file_secret_settings schema secrets))

/-- Modelled from the spec: the resolution performed when a
`CdkSettings` object is constructed. The settings library (not part of
src/) merges the customised sources with the first source taking
precedence, fills absent fields from their declared defaults, and fails
with a configuration error naming every required field that no source
supplied, producing no settings object in that case. The error carries
the list of missing field names. -/
def resolve (schema : List FieldSchema) (init_settings : Dict)
    (try_get_context : String → Value) (environ secrets : String → Option String) :
    Except (List String) Dict :=
  match missingFields schema (mergedSources schema init_settings try_get_context environ secrets) with
  | [] =>
    Except.ok (schema.map (fun fs =>
      (fs.name,
        (dictGet (mergedSources schema init_settings try_get_context environ secrets) fs.name).getD
          (schemaDefault fs))))
  | errs => Except.error errs

/-- The `export_variables` method of `CdkSettings` in src/settings.py:
iterate the declared fields in schema order and, depending on the
`export_mode` extra of the field schema, record the current value of the
field under its canonical environment-variable alias. -/
def export_variables (schema : List FieldSchema) (getattr : String → Value) : Dict :=
  schema.foldl
    (fun export_vars fs =>
      if fs.export_mode = some ExportMode.ALWAYS then
        dictInsert export_vars (headAlias fs) (getattr fs.name)
      else if fs.export_mode = some ExportMode.IF_NOT_DEFAULT ∧ getattr fs.name ≠ schemaDefault fs then
        dictInsert export_vars (headAlias fs) (getattr fs.name)
      else if fs.export_mode = some ExportMode.IF_NOT_NONE ∧ getattr fs.name ≠ Value.vnone then
        dictInsert export_vars (headAlias fs) (getattr fs.name)
      else
        export_vars)
    []

/-- Conversion of the result of `os.environ.get` to the Python value it
yields: the string when the variable is set, `None` otherwise. -/
def strToValue : Option String → Value
  | none => Value.vnone
  | some s => Value.vstr s

/-- The schema of the concrete `Settings` class of src/settings.py,
parameterised by the process environment read at import time: fields
`account` and `region`, each with export mode `ALWAYS`, default the
import-time value of `CDK_DEFAULT_ACCOUNT` respectively
`CDK_DEFAULT_REGION`, and environment-variable names derived by the
settings library from the configured cdk underscore env prefix and the
field name. -/
def settingsSchema (import_env : String → Option String) : List FieldSchema :=
  [ { name := "account",
      default := some (strToValue (import_env "CDK_DEFAULT_ACCOUNT")),
      export_mode := some ExportMode.ALWAYS,
      env_names := ["cdk_account"] },
    { name := "region",
      default := some (strToValue (import_env "CDK_DEFAULT_REGION")),
      export_mode := some ExportMode.ALWAYS,
      env_names := ["cdk_region"] } ]

/-- Modelled from the spec: the `git_repo_tag` field of the settings
revision that the pipeline stack reads (`settings.git_repo_tag` in
src/test/test_stack.py); its declaration is not under src/. Per the
spec scenario the field is looked up in the context under
`git_repo_tag` and in the environment under `GIT_REPO_TAG`. -/
def gitRepoTagField : FieldSchema :=
  { name := "git_repo_tag",
    default := some Value.vnone,
    export_mode := none,
    env_names := ["GIT_REPO_TAG"] }

/-- The declared default of a named field of a schema: `none` when the
field is not declared, otherwise the default slot of its schema. -/
def declaredDefault (schema : List FieldSchema) (name : String) : Option (Option Value) :=
  (schema.find? (fun fs => fs.name = name)).map FieldSchema.default

/-- First-of-two combinator on optional values, used to state source
precedence: the left operand wins when it is present. -/
def oor (a b : Option Value) : Option Value :=
  match a with
  | some v => some v
  | none => b

/-- Lookup of the last entry with the given key, used to describe the
merging fold. -/
def dictGetLast (d : Dict) (q : String) : Option Value :=
  dictGet d.reverse q

/-- A dict has pairwise distinct keys. Every dict built by the sources
and by the exporter satisfies this. -/
abbrev keysNodup (d : Dict) : Prop :=
  (d.map Prod.fst).Nodup

/-- Generic per-field source builder: fold over the declared fields and,
when the selector yields a value for a field, store it under the key of
the field. Each concrete source and the exporter are instances. -/
def buildSource (key : FieldSchema → String) (f : FieldSchema → Option Value)
    (schema : List FieldSchema) : Dict :=
  schema.foldl
    (fun d fs =>
      match f fs with
      | some v => dictInsert d (key fs) v
      | none => d)
    []

/-- The per-field selector of the context source: the context value of
the field name unless the lookup returns `None`. -/
def ctxSourceFun (try_get_context : String → Value) (a : String) : Option Value :=
  if try_get_context a ≠ Value.vnone then some (try_get_context a) else none

/-- The per-field selector of the environment and secret-file sources:
the first name of the field that the lookup resolves, as a string
value. -/
def envSourceFun (lookup : String → Option String) (fs : FieldSchema) : Option Value :=
  (firstEnvValue fs.env_names lookup).map Value.vstr

/-- The per-field selector of `export_variables`: the value stored for
a field, if any, as decided by its export mode. -/
def exportF (getattr : String → Value) (fs : FieldSchema) : Option Value :=
  if fs.export_mode = some ExportMode.ALWAYS then
    some (getattr fs.name)
  else if fs.export_mode = some ExportMode.IF_NOT_DEFAULT ∧ getattr fs.name ≠ schemaDefault fs then
    some (getattr fs.name)
  else if fs.export_mode = some ExportMode.IF_NOT_NONE ∧ getattr fs.name ≠ Value.vnone then
    some (getattr fs.name)
  else
    none

/-- The empty environment: no variable set, no secret file present. -/
def noEnv : String → Option String :=
  fun _ => none

/-- The deployment context of the spec scenario: `git_repo_tag` mapped
to the tag and nothing else set. -/
def scenarioContext : String → Value :=
  fun a => if a = "git_repo_tag" then Value.vstr "v1.2.0" else Value.vnone

/-- The process environment of the spec scenario: `GIT_REPO_TAG` set to
latest. -/
def scenarioEnv : String → Option String :=
  fun n => if n = "GIT_REPO_TAG" then some "latest" else none

/-- A deployment context that sets only the declared field account. -/
def c10ContextA : String → Value :=
  fun a => if a = "account" then Value.vstr "111111111111" else Value.vnone

/-- A deployment context that agrees with `c10ContextA` on the declared
fields and additionally sets an undeclared key. -/
def c10ContextB : String → Value :=
  fun a =>
    if a = "account" then Value.vstr "111111111111"
    else if a = "undeclared_key" then Value.vstr "spurious" else Value.vnone

/-- A deployment context whose value for account is the empty string, a
falsy but valid value. -/
def c3Context : String → Value :=
  fun a => if a = "account" then Value.vstr "" else Value.vnone

/-- The attribute values of a resolved settings object whose account is
the literal of the spec scenario for the exporter. -/
def c6Getattr : String → Value :=
  fun a => if a = "account" then Value.vstr "123456789012" else Value.vnone

/-- A required field (declared with no default), named after the
codestar connection setting the pipeline stack reads. -/
def requiredField : FieldSchema :=
  { name := "codestar_connection",
    default := none,
    export_mode := none,
    env_names := ["CODESTAR_CONNECTION"] }

/-- A region field declared with export mode IF NOT DEFAULT and default
`None`, as in the spec example for that mode. -/
def regionIfNotDefaultField : FieldSchema :=
  { name := "region",
    default := some Value.vnone,
    export_mode := some ExportMode.IF_NOT_DEFAULT,
    env_names := ["cdk_region"] }

/-- Attribute values overriding the region with a concrete string. -/
def c5Getattr : String → Value :=
  fun a => if a = "region" then Value.vstr "us-east-1" else Value.vnone

theorem oor_none_left (b : Option Value) : oor none b = b := rfl

theorem oor_none_right (a : Option Value) : oor a none = a := by
  cases a <;> rfl

theorem oor_idem (x a : Option Value) : oor x (oor x a) = oor x a := by
  cases x <;> rfl

theorem dictGet_dictInsert (d : Dict) (key : String) (v : Value) (q : String) :
    dictGet (dictInsert d key v) q = if key = q then some v else dictGet d q := by
  induction d with
  | nil => simp [dictInsert, dictGet]
  | cons p rest ih =>
    obtain ⟨k, w⟩ := p
    by_cases hk : k = key
    · subst hk
      by_cases hq : k = q <;> simp [dictInsert, dictGet, hq]
    · by_cases hq : k = q <;> by_cases hq2 : key = q <;>
        simp_all [dictInsert, dictGet]

theorem dictGet_eq_none_iff (d : Dict) (q : String) :
    dictGet d q = none ↔ ∀ p ∈ d, p.1 ≠ q := by
  induction d with
  | nil => simp [dictGet]
  | cons p rest ih =>
    obtain ⟨k, w⟩ := p
    by_cases hk : k = q <;> simp [dictGet, hk, ih]

theorem dictGetLast_eq_none (d : Dict) (q : String) (h : dictGet d q = none) :
    dictGetLast d q = none := by
  rw [dictGet_eq_none_iff] at h
  rw [dictGetLast, dictGet_eq_none_iff]
  intro p hp
  exact h p (List.mem_reverse.mp hp)

theorem dictGet_append (d1 d2 : Dict) (q : String) :
    dictGet (d1 ++ d2) q = oor (dictGet d1 q) (dictGet d2 q) := by
  induction d1 with
  | nil => simp [dictGet, oor]
  | cons p rest ih =>
    obtain ⟨k, w⟩ := p
    by_cases hk : k = q <;> simp [dictGet, hk, ih, oor]

theorem dictGetLast_eq_dictGet (d : Dict) (q : String) (h : keysNodup d) :
    dictGetLast d q = dictGet d q := by
  induction d with
  | nil => rfl
  | cons p rest ih =>
    obtain ⟨k, w⟩ := p
    rw [keysNodup, List.map_cons, List.nodup_cons] at h
    have ih2 := ih h.2
    rw [dictGetLast] at ih2
    rw [dictGetLast, List.reverse_cons, dictGet_append, ih2]
    by_cases hk : k = q
    · subst hk
      have hrest : dictGet rest k = none := by
        rw [dictGet_eq_none_iff]
        intro p hp hpk
        apply h.1
        have hmem : p.1 ∈ rest.map Prod.fst := List.mem_map_of_mem Prod.fst hp
        rwa [hpk] at hmem
      simp [dictGet, hrest, oor]
    · simp [dictGet, hk, oor_none_right]

theorem keys_dictInsert_subset (d : Dict) (key : String) (v : Value) (a : String)
    (h : a ∈ (dictInsert d key v).map Prod.fst) : a = key ∨ a ∈ d.map Prod.fst := by
  induction d with
  | nil => simpa [dictInsert] using h
  | cons p rest ih =>
    obtain ⟨k, w⟩ := p
    simp only [dictInsert] at h
    by_cases hk : k = key
    · rw [if_pos hk] at h
      simp only [List.map_cons, List.mem_cons] at h ⊢
      tauto
    · rw [if_neg hk] at h
      simp only [List.map_cons, List.mem_cons] at h ⊢
      rcases h with h | h
      · tauto
      · rcases ih h with h | h <;> tauto

theorem keysNodup_dictInsert (d : Dict) (key : String) (v : Value) (h : keysNodup d) :
    keysNodup (dictInsert d key v) := by
  induction d with
  | nil => simp [dictInsert, keysNodup]
  | cons p rest ih =>
    obtain ⟨k, w⟩ := p
    rw [keysNodup, List.map_cons, List.nodup_cons] at h
    simp only [dictInsert]
    by_cases hk : k = key
    · rw [if_pos hk]
      rw [keysNodup, List.map_cons, List.nodup_cons]
      exact ⟨hk ▸ h.1, h.2⟩
    · rw [if_neg hk]
      rw [keysNodup, List.map_cons, List.nodup_cons]
      constructor
      · intro hmem
        rcases keys_dictInsert_subset rest key v k hmem with h1 | h1
        · exact hk h1
        · exact h.1 h1
      · exact ih h.2

theorem keysNodup_foldl {α : Type} {g : Dict → α → Dict} (l : List α) (d : Dict)
    (hd : keysNodup d) (hg : ∀ d a, keysNodup d → keysNodup (g d a)) :
    keysNodup (l.foldl g d) := by
  induction l generalizing d with
  | nil => exact hd
  | cons x xs ih => exact ih (g d x) (hg d x hd)

theorem keysNodup_context_settings (schema : List FieldSchema) (try_get_context : String → Value) :
    keysNodup (context_settings schema try_get_context) := by
  unfold context_settings
  refine keysNodup_foldl schema [] (by exact List.Pairwise.nil) ?_
  intro d fs hd
  dsimp only
  split
  · exact keysNodup_dictInsert _ _ _ hd
  · exact hd

theorem keysNodup_env_settings (schema : List FieldSchema) (environ : String → Option String) :
    keysNodup (env_settings schema environ) := by
  unfold env_settings
  refine keysNodup_foldl schema [] (by exact List.Pairwise.nil) ?_
  intro d fs hd
  dsimp only
  split
  · exact keysNodup_dictInsert _ _ _ hd
  · exact hd

theorem keysNodup_file_secret_settings (schema : List FieldSchema)
    (secrets : String → Option String) :
    keysNodup (file_secret_settings schema secrets) := by
  unfold file_secret_settings
  refine keysNodup_foldl schema [] (by exact List.Pairwise.nil) ?_
  intro d fs hd
  dsimp only
  split
  · exact keysNodup_dictInsert _ _ _ hd
  · exact hd

theorem dictGet_foldl_insert (d acc : Dict) (q : String) :
    dictGet (d.foldl (fun a kv => dictInsert a kv.1 kv.2) acc) q =
      oor (dictGetLast d q) (dictGet acc q) := by
  induction d generalizing acc with
  | nil => simp [dictGetLast, dictGet, oor]
  | cons kv rest ih =>
    obtain ⟨k, w⟩ := kv
    have hlast : dictGetLast ((k, w) :: rest) q =
        oor (dictGetLast rest q) (dictGet [(k, w)] q) := by
      rw [dictGetLast, List.reverse_cons, dictGet_append]
      rfl
    simp only [List.foldl_cons]
    rw [ih, dictGet_dictInsert, hlast]
    by_cases hk : k = q <;> cases hrest : dictGetLast rest q <;>
      simp [dictGet, hk, oor]

theorem dictGet_build_values (s1 s2 s3 s4 : Dict) (q : String) :
    dictGet (build_values (customise_sources s1 s2 s3 s4)) q =
      oor (dictGetLast s1 q)
        (oor (dictGetLast s2 q) (oor (dictGetLast s3 q) (dictGetLast s4 q))) := by
  unfold build_values customise_sources deep_update
  simp only [List.reverse_cons, List.reverse_nil, List.nil_append, List.cons_append,
    List.foldl_cons, List.foldl_nil]
  rw [dictGet_foldl_insert, dictGet_foldl_insert, dictGet_foldl_insert, dictGet_foldl_insert]
  cases dictGetLast s4 q <;> simp [dictGet, oor]

theorem dictGet_mergedSources (schema : List FieldSchema) (init : Dict)
    (tgc : String → Value) (environ secrets : String → Option String) (q : String)
    (hinit : keysNodup init) :
    dictGet (mergedSources schema init tgc environ secrets) q =
      oor (dictGet init q)
        (oor (dictGet (context_settings schema tgc) q)
          (oor (dictGet (env_settings schema environ) q)
            (dictGet (file_secret_settings schema secrets) q))) := by
  unfold mergedSources
  rw [dictGet_build_values,
    dictGetLast_eq_dictGet _ _ hinit,
    dictGetLast_eq_dictGet _ _ (keysNodup_context_settings schema tgc),
    dictGetLast_eq_dictGet _ _ (keysNodup_env_settings schema environ),
    dictGetLast_eq_dictGet _ _ (keysNodup_file_secret_settings schema secrets)]

theorem dictGet_mergedSources_of_init_none (schema : List FieldSchema) (init : Dict)
    (tgc : String → Value) (environ secrets : String → Option String) (q : String)
    (hinit : dictGet init q = none) :
    dictGet (mergedSources schema init tgc environ secrets) q =
      oor (dictGet (context_settings schema tgc) q)
        (oor (dictGet (env_settings schema environ) q)
          (dictGet (file_secret_settings schema secrets) q)) := by
  unfold mergedSources
  rw [dictGet_build_values, dictGetLast_eq_none _ _ hinit, oor_none_left,
    dictGetLast_eq_dictGet _ _ (keysNodup_context_settings schema tgc),
    dictGetLast_eq_dictGet _ _ (keysNodup_env_settings schema environ),
    dictGetLast_eq_dictGet _ _ (keysNodup_file_secret_settings schema secrets)]

theorem dictGet_buildSource_fold (key : FieldSchema → String) (f : FieldSchema → Option Value)
    (schema : List FieldSchema) (acc : Dict) (q : String) :
    dictGet
        (schema.foldl
          (fun d fs =>
            match f fs with
            | some v => dictInsert d (key fs) v
            | none => d)
          acc) q =
      schema.foldl (fun a fs => if key fs = q then oor (f fs) a else a) (dictGet acc q) := by
  induction schema generalizing acc with
  | nil => rfl
  | cons fs rest ih =>
    simp only [List.foldl_cons]
    rw [ih]
    congr 1
    cases hf : f fs with
    | none => simp [oor]
    | some v =>
      rw [dictGet_dictInsert]
      by_cases hk : key fs = q <;> simp [hk, oor]

theorem dictGet_buildSource (key : FieldSchema → String) (f : FieldSchema → Option Value)
    (schema : List FieldSchema) (q : String) :
    dictGet (buildSource key f schema) q =
      schema.foldl (fun a fs => if key fs = q then oor (f fs) a else a) none := by
  unfold buildSource
  rw [dictGet_buildSource_fold]
  rfl

theorem foldl_oor_no_hit (key : FieldSchema → String) (f : FieldSchema → Option Value)
    (l : List FieldSchema) (q : String) (a : Option Value)
    (h : ∀ g ∈ l, key g ≠ q) :
    l.foldl (fun a g => if key g = q then oor (f g) a else a) a = a := by
  induction l generalizing a with
  | nil => rfl
  | cons g rest ih =>
    simp only [List.foldl_cons]
    rw [if_neg (h g (List.mem_cons_self g rest))]
    exact ih a (fun x hx => h x (List.mem_cons_of_mem g hx))

theorem foldl_oor_nodup (key : FieldSchema → String) (f : FieldSchema → Option Value)
    (schema : List FieldSchema) (fs : FieldSchema)
    (hnd : (schema.map key).Nodup) (hfs : fs ∈ schema) :
    schema.foldl (fun a g => if key g = key fs then oor (f g) a else a) none = f fs := by
  induction schema with
  | nil => cases hfs
  | cons g rest ih =>
    rw [List.map_cons, List.nodup_cons] at hnd
    rcases List.mem_cons.mp hfs with heq | hmem
    · subst heq
      simp only [List.foldl_cons, eq_self_iff_true, if_true]
      rw [foldl_oor_no_hit key f rest (key fs) (oor (f fs) none) ?_, oor_none_right]
      intro x hx hxk
      exact hnd.1 (hxk ▸ List.mem_map_of_mem key hx)
    · have hne : key g ≠ key fs := by
        intro hh
        exact hnd.1 (hh ▸ List.mem_map_of_mem key hmem)
      simp only [List.foldl_cons, if_neg hne]
      exact ih hnd.2 hmem

theorem dictGet_buildSource_nodup (key : FieldSchema → String) (f : FieldSchema → Option Value)
    (schema : List FieldSchema) (fs : FieldSchema)
    (hnd : (schema.map key).Nodup) (hfs : fs ∈ schema) :
    dictGet (buildSource key f schema) (key fs) = f fs := by
  rw [dictGet_buildSource]
  exact foldl_oor_nodup key f schema fs hnd hfs

theorem foldl_oor_const (key : FieldSchema → String) (f : FieldSchema → Option Value)
    (g : String → Option Value) (hf : ∀ x, f x = g (key x))
    (l : List FieldSchema) (q : String) (a : Option Value) :
    l.foldl (fun a x => if key x = q then oor (f x) a else a) a =
      if ∃ x ∈ l, key x = q then oor (g q) a else a := by
  induction l generalizing a with
  | nil => simp
  | cons x rest ih =>
    simp only [List.foldl_cons]
    by_cases hx : key x = q
    · rw [if_pos hx, hf x, hx, ih]
      by_cases hrest : ∃ y ∈ rest, key y = q
      · rw [if_pos hrest, oor_idem, if_pos ?_]
        exact ⟨x, List.mem_cons_self x rest, hx⟩
      · rw [if_neg hrest, if_pos ?_]
        exact ⟨x, List.mem_cons_self x rest, hx⟩
    · rw [if_neg hx, ih]
      by_cases hrest : ∃ y ∈ rest, key y = q
      · rw [if_pos hrest, if_pos ?_]
        obtain ⟨y, hy, hyk⟩ := hrest
        exact ⟨y, List.mem_cons_of_mem x hy, hyk⟩
      · rw [if_neg hrest, if_neg ?_]
        intro hcons
        obtain ⟨y, hy, hyk⟩ := hcons
        rcases List.mem_cons.mp hy with rfl | hy2
        · exact hx hyk
        · exact hrest ⟨y, hy2, hyk⟩

theorem context_settings_eq_buildSource (schema : List FieldSchema) (tgc : String → Value) :
    context_settings schema tgc =
      buildSource (fun fs => fs.name) (fun fs => ctxSourceFun tgc fs.name) schema := by
  unfold context_settings buildSource
  apply List.foldl_ext
  intro d fs _
  by_cases h : tgc fs.name = Value.vnone <;> simp [ctxSourceFun, h]

theorem env_settings_eq_buildSource (schema : List FieldSchema) (environ : String → Option String) :
    env_settings schema environ =
      buildSource (fun fs => fs.name) (envSourceFun environ) schema := by
  unfold env_settings buildSource
  apply List.foldl_ext
  intro d fs _
  cases h : firstEnvValue fs.env_names environ <;> simp [envSourceFun, h]

theorem file_secret_settings_eq_buildSource (schema : List FieldSchema)
    (secrets : String → Option String) :
    file_secret_settings schema secrets =
      buildSource (fun fs => fs.name) (envSourceFun secrets) schema := by
  unfold file_secret_settings buildSource
  apply List.foldl_ext
  intro d fs _
  cases h : firstEnvValue fs.env_names secrets <;> simp [envSourceFun, h]

theorem export_variables_eq_buildSource (schema : List FieldSchema) (getattr : String → Value) :
    export_variables schema getattr = buildSource headAlias (exportF getattr) schema := by
  unfold export_variables buildSource
  apply List.foldl_ext
  intro d fs _
  unfold exportF
  split_ifs with h1 h2 h3 <;> rfl

theorem dictGet_context_settings_self (schema : List FieldSchema) (tgc : String → Value)
    (fs : FieldSchema) (hnd : (schema.map FieldSchema.name).Nodup) (hfs : fs ∈ schema) :
    dictGet (context_settings schema tgc) fs.name = ctxSourceFun tgc fs.name := by
  rw [context_settings_eq_buildSource]
  exact dictGet_buildSource_nodup (fun g => g.name) _ schema fs hnd hfs

theorem dictGet_env_settings_self (schema : List FieldSchema) (environ : String → Option String)
    (fs : FieldSchema) (hnd : (schema.map FieldSchema.name).Nodup) (hfs : fs ∈ schema) :
    dictGet (env_settings schema environ) fs.name = envSourceFun environ fs := by
  rw [env_settings_eq_buildSource]
  exact dictGet_buildSource_nodup (fun g => g.name) _ schema fs hnd hfs

theorem dictGet_file_secret_settings_self (schema : List FieldSchema)
    (secrets : String → Option String)
    (fs : FieldSchema) (hnd : (schema.map FieldSchema.name).Nodup) (hfs : fs ∈ schema) :
    dictGet (file_secret_settings schema secrets) fs.name = envSourceFun secrets fs := by
  rw [file_secret_settings_eq_buildSource]
  exact dictGet_buildSource_nodup (fun g => g.name) _ schema fs hnd hfs

theorem dictGet_export_variables_self (schema : List FieldSchema) (getattr : String → Value)
    (fs : FieldSchema) (hnd : (schema.map headAlias).Nodup) (hfs : fs ∈ schema) :
    dictGet (export_variables schema getattr) (headAlias fs) = exportF getattr fs := by
  rw [export_variables_eq_buildSource]
  exact dictGet_buildSource_nodup headAlias _ schema fs hnd hfs

theorem dictGet_context_settings_any (schema : List FieldSchema) (tgc : String → Value)
    (q : String) :
    dictGet (context_settings schema tgc) q =
      if ∃ fs ∈ schema, fs.name = q then ctxSourceFun tgc q else none := by
  rw [context_settings_eq_buildSource, dictGet_buildSource,
    foldl_oor_const (fun fs => fs.name) _ (ctxSourceFun tgc) (fun x => rfl) schema q none]
  by_cases h : ∃ fs ∈ schema, fs.name = q <;> simp [h, oor_none_right]

theorem mem_missingFields (schema : List FieldSchema) (merged : Dict) (fs : FieldSchema)
    (hfs : fs ∈ schema) (hnone : dictGet merged fs.name = none) (hreq : fs.default = none) :
    fs.name ∈ missingFields schema merged := by
  unfold missingFields
  refine List.mem_filterMap.mpr ⟨fs, hfs, ?_⟩
  simp [hnone, hreq]

theorem dictGet_map_schema (schema : List FieldSchema) (val : FieldSchema → Value)
    (fs : FieldSchema) (hnd : (schema.map FieldSchema.name).Nodup) (hfs : fs ∈ schema) :
    dictGet (schema.map (fun g => (g.name, val g))) fs.name = some (val fs) := by
  induction schema with
  | nil => cases hfs
  | cons g rest ih =>
    rw [List.map_cons, List.nodup_cons] at hnd
    rcases List.mem_cons.mp hfs with heq | hmem
    · subst heq
      simp [dictGet]
    · have hne : g.name ≠ fs.name := by
        intro hh
        exact hnd.1 (hh ▸ List.mem_map_of_mem FieldSchema.name hmem)
      simp only [List.map_cons, dictGet, if_neg hne]
      exact ih hnd.2 hmem

theorem resolve_ok_eq (schema : List FieldSchema) (init : Dict) (tgc : String → Value)
    (environ secrets : String → Option String) (res : Dict)
    (h : resolve schema init tgc environ secrets = Except.ok res) :
    res = schema.map (fun fs =>
      (fs.name,
        (dictGet (mergedSources schema init tgc environ secrets) fs.name).getD
          (schemaDefault fs))) := by
  unfold resolve at h
  rcases hm : missingFields schema (mergedSources schema init tgc environ secrets) with _ | ⟨a, l⟩
  · rw [hm] at h
    exact (Except.ok.inj h).symm
  · rw [hm] at h
    cases h

theorem resolve_error_of_mem (schema : List FieldSchema) (init : Dict) (tgc : String → Value)
    (environ secrets : String → Option String) (a : String)
    (hmem : a ∈ missingFields schema (mergedSources schema init tgc environ secrets)) :
    resolve schema init tgc environ secrets =
      Except.error (missingFields schema (mergedSources schema init tgc environ secrets)) := by
  unfold resolve
  rcases hm : missingFields schema (mergedSources schema init tgc environ secrets) with _ | ⟨b, l⟩
  · rw [hm] at hmem
    cases hmem
  · rfl

/-- Claim C1: for every declared field of a successfully resolved
settings object, the resolved value is the one of the highest-precedence
source that provides the field, with precedence explicit init arguments,
then deployment-context lookup, then environment variables, then
secret-file contents, falling back to the declared default when no
source provides it. -/
theorem claim_C1 (schema : List FieldSchema) (init : Dict) (tgc : String → Value)
    (environ secrets : String → Option String) (fs : FieldSchema) (res : Dict)
    (hnd : (schema.map FieldSchema.name).Nodup) (hinit : keysNodup init)
    (hfs : fs ∈ schema)
    (hok : resolve schema init tgc environ secrets = Except.ok res) :
    dictGet res fs.name = some
      ((oor (dictGet init fs.name)
          (oor (dictGet (context_settings schema tgc) fs.name)
            (oor (dictGet (env_settings schema environ) fs.name)
              (dictGet (file_secret_settings schema secrets) fs.name)))).getD
        (schemaDefault fs)) := by
  rw [resolve_ok_eq schema init tgc environ secrets res hok,
    dictGet_map_schema schema _ fs hnd hfs,
    dictGet_mergedSources schema init tgc environ secrets fs.name hinit]

/-- Witness for C1, the spec scenario: context maps git_repo_tag to the
tag v1.2.0 while the environment sets GIT_REPO_TAG to latest, and the
resolved git_repo_tag is the context value v1.2.0. -/
theorem claim_C1_witness :
    resolve [gitRepoTagField] [] scenarioContext scenarioEnv noEnv =
        Except.ok [("git_repo_tag", Value.vstr "v1.2.0")] ∧
      dictGet [("git_repo_tag", Value.vstr "v1.2.0")] "git_repo_tag" =
        some (Value.vstr "v1.2.0") := by
  constructor
  · rfl
  · have h := claim_C1 [gitRepoTagField] [] scenarioContext scenarioEnv noEnv gitRepoTagField
      [("git_repo_tag", Value.vstr "v1.2.0")] (by decide) List.Pairwise.nil
      (List.mem_cons_self gitRepoTagField []) rfl
    exact h.trans (by rfl)

/-- Claim C2: a required field (no default) that no source supplies
makes resolution fail with a configuration error whose payload names the
missing field, and no settings object is produced. -/
theorem claim_C2 (schema : List FieldSchema) (init : Dict) (tgc : String → Value)
    (environ secrets : String → Option String) (fs : FieldSchema)
    (hnd : (schema.map FieldSchema.name).Nodup) (hfs : fs ∈ schema)
    (hreq : fs.default = none)
    (hinit : dictGet init fs.name = none)
    (hctx : tgc fs.name = Value.vnone)
    (henv : firstEnvValue fs.env_names environ = none)
    (hsec : firstEnvValue fs.env_names secrets = none) :
    (∃ errs, resolve schema init tgc environ secrets = Except.error errs ∧ fs.name ∈ errs) ∧
      ∀ res, resolve schema init tgc environ secrets ≠ Except.ok res := by
  have hmerged : dictGet (mergedSources schema init tgc environ secrets) fs.name = none := by
    rw [dictGet_mergedSources_of_init_none schema init tgc environ secrets fs.name hinit,
      dictGet_context_settings_self schema tgc fs hnd hfs,
      dictGet_env_settings_self schema environ fs hnd hfs,
      dictGet_file_secret_settings_self schema secrets fs hnd hfs]
    simp [ctxSourceFun, envSourceFun, hctx, henv, hsec, oor]
  have hmem := mem_missingFields schema _ fs hfs hmerged hreq
  have herr := resolve_error_of_mem schema init tgc environ secrets fs.name hmem
  refine ⟨⟨_, herr, hmem⟩, ?_⟩
  intro res hok
  rw [herr] at hok
  cases hok

/-- Witness for C2: a required codestar connection field with no value
in any source makes resolution fail with an error naming it, and no
object is produced. -/
theorem claim_C2_witness :
    (∃ errs, resolve [requiredField] [] (fun _ => Value.vnone) noEnv noEnv =
        Except.error errs ∧ "codestar_connection" ∈ errs) ∧
      ∀ res, resolve [requiredField] [] (fun _ => Value.vnone) noEnv noEnv ≠
        Except.ok res :=
  claim_C2 [requiredField] [] (fun _ => Value.vnone) noEnv noEnv requiredField
    (by decide) (List.mem_cons_self requiredField []) rfl rfl rfl rfl rfl

/-- Claim C3: a deployment-context value that is falsy but valid (for
example the empty string or zero) is used as the resolved value of the
field; only a context lookup returning None makes resolution fall
through to the lower-precedence sources (environment, then secret
files, then the declared default). -/
theorem claim_C3 (schema : List FieldSchema) (init : Dict) (tgc : String → Value)
    (environ secrets : String → Option String) (fs : FieldSchema) (res : Dict)
    (hnd : (schema.map FieldSchema.name).Nodup) (hfs : fs ∈ schema)
    (hinit : dictGet init fs.name = none)
    (hok : resolve schema init tgc environ secrets = Except.ok res) :
    (tgc fs.name ≠ Value.vnone → dictGet res fs.name = some (tgc fs.name)) ∧
      (tgc fs.name = Value.vnone →
        dictGet res fs.name = some
          ((oor (dictGet (env_settings schema environ) fs.name)
              (dictGet (file_secret_settings schema secrets) fs.name)).getD
            (schemaDefault fs))) := by
  rw [resolve_ok_eq schema init tgc environ secrets res hok,
    dictGet_map_schema schema _ fs hnd hfs,
    dictGet_mergedSources_of_init_none schema init tgc environ secrets fs.name hinit,
    dictGet_context_settings_self schema tgc fs hnd hfs]
  constructor
  · intro h
    simp [ctxSourceFun, h, oor]
  · intro h
    simp [ctxSourceFun, h, oor]

/-- Witness for C3: a context value that is the empty string, falsy but
valid, becomes the resolved value of the account field. -/
theorem claim_C3_witness :
    c3Context "account" ≠ Value.vnone ∧
      dictGet [("account", Value.vstr ""), ("region", Value.vnone)] "account" =
        some (Value.vstr "") := by
  refine ⟨by decide, ?_⟩
  have h := claim_C3 (settingsSchema noEnv) [] c3Context noEnv noEnv
    ⟨"account", some Value.vnone, some ExportMode.ALWAYS, ["cdk_account"]⟩
    [("account", Value.vstr ""), ("region", Value.vnone)]
    (by decide) (by decide) rfl rfl
  have h2 := h.1 (by decide)
  exact h2.trans (by rfl)

/-- Claim C4: a field declared with export mode ALWAYS always appears in
the output of export variables under its canonical environment-variable
alias, mapped to its current value, whatever that value is, None
included. -/
theorem claim_C4 (schema : List FieldSchema) (getattr : String → Value) (fs : FieldSchema)
    (hnd : (schema.map headAlias).Nodup) (hfs : fs ∈ schema)
    (hmode : fs.export_mode = some ExportMode.ALWAYS) :
    dictGet (export_variables schema getattr) (headAlias fs) = some (getattr fs.name) := by
  rw [dictGet_export_variables_self schema getattr fs hnd hfs]
  simp [exportF, hmode]

/-- Witness for C4: the account field of the concrete settings class,
with current value None, is still exported under its alias. -/
theorem claim_C4_witness :
    dictGet (export_variables (settingsSchema noEnv) (fun _ => Value.vnone)) "cdk_account" =
      some Value.vnone :=
  claim_C4 (settingsSchema noEnv) (fun _ => Value.vnone)
    ⟨"account", some Value.vnone, some ExportMode.ALWAYS, ["cdk_account"]⟩
    (by decide) (by decide) rfl

/-- Claim C5: a field declared with export mode IF NOT DEFAULT appears
in the output of export variables under its alias exactly when its
current value differs from its declared default, and when present it is
mapped to the current value. -/
theorem claim_C5 (schema : List FieldSchema) (getattr : String → Value) (fs : FieldSchema)
    (d : Value) (hnd : (schema.map headAlias).Nodup) (hfs : fs ∈ schema)
    (hmode : fs.export_mode = some ExportMode.IF_NOT_DEFAULT)
    (hdef : fs.default = some d) :
    ((dictGet (export_variables schema getattr) (headAlias fs)).isSome ↔
        getattr fs.name ≠ d) ∧
      ∀ v, dictGet (export_variables schema getattr) (headAlias fs) = some v →
        v = getattr fs.name := by
  rw [dictGet_export_variables_self schema getattr fs hnd hfs]
  have hsd : schemaDefault fs = d := by
    rw [schemaDefault, hdef]
    rfl
  constructor
  · by_cases h : getattr fs.name = d <;> simp [exportF, hmode, hsd, h]
  · intro v hv
    by_cases h : getattr fs.name = d
    · simp [exportF, hmode, hsd, h] at hv
    · simp [exportF, hmode, hsd, h] at hv
      exact hv.symm

/-- Witness for C5, the spec example: a region field with default None
and export mode IF NOT DEFAULT, overridden to a concrete region, is
present in the output exactly because the value differs from the
default, mapped to the current value. -/
theorem claim_C5_witness :
    ((dictGet (export_variables [regionIfNotDefaultField] c5Getattr)
          (headAlias regionIfNotDefaultField)).isSome ↔
        c5Getattr regionIfNotDefaultField.name ≠ Value.vnone) ∧
      ∀ v, dictGet (export_variables [regionIfNotDefaultField] c5Getattr)
          (headAlias regionIfNotDefaultField) = some v →
        v = c5Getattr regionIfNotDefaultField.name :=
  claim_C5 [regionIfNotDefaultField] c5Getattr regionIfNotDefaultField Value.vnone
    (by decide) (List.mem_cons_self regionIfNotDefaultField []) rfl rfl

/-- Counterexample to C6 as stated: with the account field resolved to
the scenario value, the output of export variables has no key
CDK_DEFAULT_ACCOUNT, because the alias the library derives for the
field is the env prefix followed by the field name, not an uppercased
name. -/
theorem claim_C6_counterexample :
    dictGet (export_variables (settingsSchema noEnv) c6Getattr) "CDK_DEFAULT_ACCOUNT" =
      none := rfl

/-- Claim C6 as amended: with the account field resolved to the
scenario value, export variables includes the entry mapping cdk_account
(the configured env prefix followed by the field name, not uppercased)
to that value. -/
theorem claim_C6_amended :
    dictGet (export_variables (settingsSchema noEnv) c6Getattr) "cdk_account" =
      some (Value.vstr "123456789012") := rfl

/-- Claim C7: a field declared without an export mode behaves as NEVER,
its alias is not a key of the output of export variables, whatever the
current value of the field. -/
theorem claim_C7 (schema : List FieldSchema) (getattr : String → Value) (fs : FieldSchema)
    (hnd : (schema.map headAlias).Nodup) (hfs : fs ∈ schema)
    (hmode : fs.export_mode = none) :
    dictGet (export_variables schema getattr) (headAlias fs) = none := by
  rw [dictGet_export_variables_self schema getattr fs hnd hfs]
  simp [exportF, hmode]

/-- Witness for C7: the git repo tag field, declared without an export
mode, is absent from the output even with a non-default value. -/
theorem claim_C7_witness :
    dictGet (export_variables [gitRepoTagField] (fun _ => Value.vstr "v9"))
        (headAlias gitRepoTagField) = none :=
  claim_C7 [gitRepoTagField] (fun _ => Value.vstr "v9") gitRepoTagField (by decide)
    (List.mem_cons_self gitRepoTagField []) rfl

/-- Claim C8: export variables is a deterministic function of the
settings object, so two calls on the same unmutated object (equal
attribute values) yield identical mappings. -/
theorem claim_C8 (schema : List FieldSchema) (g1 g2 : String → Value)
    (h : ∀ a, g1 a = g2 a) :
    export_variables schema g1 = export_variables schema g2 := by
  unfold export_variables
  apply List.foldl_ext
  intro d fs _
  simp only [h]

/-- Witness for C8: two calls over the same attribute values of the
concrete settings class produce the same mapping. -/
theorem claim_C8_witness :
    (∀ a : String, (fun _ : String => Value.vnone) a = (fun _ : String => strToValue none) a) ∧
      export_variables (settingsSchema noEnv) (fun _ => Value.vnone) =
        export_variables (settingsSchema noEnv) (fun _ => strToValue none) :=
  ⟨fun _ => rfl, claim_C8 (settingsSchema noEnv) _ _ (fun _ => rfl)⟩

/-- Claim C9: the declared defaults of the account and region fields of
the concrete settings class are the values of CDK_DEFAULT_ACCOUNT and
CDK_DEFAULT_REGION in the environment read at import time, and None
when those variables are unset, so the default varies with the
importing process environment. -/
theorem claim_C9 (e : String → Option String) :
    declaredDefault (settingsSchema e) "account" =
        some (some (strToValue (e "CDK_DEFAULT_ACCOUNT"))) ∧
      declaredDefault (settingsSchema e) "region" =
        some (some (strToValue (e "CDK_DEFAULT_REGION"))) ∧
      (e "CDK_DEFAULT_ACCOUNT" = none →
        declaredDefault (settingsSchema e) "account" = some (some Value.vnone)) ∧
      (e "CDK_DEFAULT_REGION" = none →
        declaredDefault (settingsSchema e) "region" = some (some Value.vnone)) := by
  refine ⟨rfl, rfl, ?_, ?_⟩
  · intro h
    have h1 : declaredDefault (settingsSchema e) "account" =
        some (some (strToValue (e "CDK_DEFAULT_ACCOUNT"))) := rfl
    rw [h1, h]
    rfl
  · intro h
    have h1 : declaredDefault (settingsSchema e) "region" =
        some (some (strToValue (e "CDK_DEFAULT_REGION"))) := rfl
    rw [h1, h]
    rfl

/-- Witness for C9: with both variables unset at import time, the
declared defaults of account and region are None. -/
theorem claim_C9_witness :
    noEnv "CDK_DEFAULT_ACCOUNT" = none ∧
      declaredDefault (settingsSchema noEnv) "account" = some (some Value.vnone) ∧
      declaredDefault (settingsSchema noEnv) "region" = some (some Value.vnone) := by
  refine ⟨rfl, ?_, ?_⟩
  · exact (claim_C9 noEnv).2.2.1 rfl
  · exact (claim_C9 noEnv).2.2.2 rfl

/-- Claim C10: resolution consults the deployment context only at the
declared field names, so two context stores that agree on every
declared field name resolve to identical settings objects; entries
under undeclared keys never influence the result. -/
theorem claim_C10 (schema : List FieldSchema) (init : Dict) (tgc1 tgc2 : String → Value)
    (environ secrets : String → Option String)
    (h : ∀ fs ∈ schema, tgc1 fs.name = tgc2 fs.name) :
    resolve schema init tgc1 environ secrets = resolve schema init tgc2 environ secrets := by
  have hctx : context_settings schema tgc1 = context_settings schema tgc2 := by
    unfold context_settings
    apply List.foldl_ext
    intro d fs hmem
    rw [h fs hmem]
  unfold resolve mergedSources
  rw [hctx]

/-- Witness for C10: two context stores that agree on the declared
fields account and region but differ on an undeclared key give the same
resolved settings object. -/
theorem claim_C10_witness :
    (∀ fs ∈ settingsSchema noEnv, c10ContextA fs.name = c10ContextB fs.name) ∧
      resolve (settingsSchema noEnv) [] c10ContextA noEnv noEnv =
        resolve (settingsSchema noEnv) [] c10ContextB noEnv noEnv :=
  ⟨by decide,
    claim_C10 (settingsSchema noEnv) [] c10ContextA c10ContextB noEnv noEnv (by decide)⟩

end CdkSettingsModel
